import Mathlib

/- Verification development for the RAG store of the IAP workshop repository.
   The Python functions from src/workshop1/vector_db.py, src/workshop1/chunker.py,
   src/workshop1/rag.py and src/api/routes/rag.py are shallowly embedded as
   executable Lean definitions.  Python strings are modelled as Lean strings
   (or as lists of characters inside the chunker, where character-level
   reasoning is needed), SQLite tables as association lists in insertion
   order, and floats as rationals. -/

/-- Row of the embeddings_meta table; via the sync triggers the FTS5 lexical
index stores the same three columns (content, source_type, source_id). -/
structure MetaRow where
  source_type : String
  source_id : Option String
  content : String
deriving DecidableEq, Repr

/-- The persistent store built by init_vector_db (vector_db.py lines 44-122):
metadata table, vec0 vector table and FTS5 lexical index, all joined by
rowid, plus the AUTOINCREMENT counter for the next fresh id. -/
structure Store where
  meta : List (Nat × MetaRow)
  vec : List (Nat × List ℚ)
  fts : List (Nat × MetaRow)
  next_id : Nat
deriving DecidableEq, Repr

/-- A freshly initialised database: all three tables empty, first rowid 1. -/
def empty_store : Store := ⟨[], [], [], 1⟩

/-- Python truthiness of an Optional[str]: None and the empty string are falsy. -/
def pyTruthyStr : Option String → Bool
  | none => false
  | some s => !(s == "")

/-- save_embedding (vector_db.py lines 162-216): insert the metadata row (the
AFTER INSERT trigger mirrors it into the FTS index) and the vector row, both
under the fresh AUTOINCREMENT rowid; return the rowid. -/
def save_embedding (s : Store) (source_type : String) (content : String)
    (embedding : List ℚ) (source_id : Option String) : Store × Nat :=
  let id := s.next_id
  let row : MetaRow := ⟨source_type, source_id, content⟩
  (⟨s.meta ++ [(id, row)], s.vec ++ [(id, embedding)], s.fts ++ [(id, row)], id + 1⟩, id)

/-- Row filter of delete_embeddings_by_source (vector_db.py lines 237-247):
the Python truthiness of source_id decides whether the source_id column
participates in the WHERE clause. -/
def delete_pred (source_type : String) (source_id : Option String) :
    Nat × MetaRow → Bool := fun p =>
  if pyTruthyStr source_id then
    p.2.source_type == source_type && p.2.source_id == source_id
  else
    p.2.source_type == source_type

/-- Ids selected for deletion by delete_embeddings_by_source. -/
def delete_ids (s : Store) (source_type : String) (source_id : Option String) : List Nat :=
  (s.meta.filter (delete_pred source_type source_id)).map (·.1)

/-- delete_embeddings_by_source (vector_db.py lines 219-262): collect the ids
matching the source filter, return 0 with the store untouched when none
match, otherwise delete those rowids from the vector table and the metadata
table (the AFTER DELETE trigger removes the FTS rows). -/
def delete_embeddings_by_source (s : Store) (source_type : String)
    (source_id : Option String) : Store × Nat :=
  if delete_ids s source_type source_id = [] then (s, 0)
  else
    (⟨s.meta.filter (fun p => !((delete_ids s source_type source_id).contains p.1)),
      s.vec.filter (fun p => !((delete_ids s source_type source_id).contains p.1)),
      s.fts.filter (fun p => !((delete_ids s source_type source_id).contains p.1)),
      s.next_id⟩, (delete_ids s source_type source_id).length)

/-- A write operation against the store. -/
inductive StoreOp where
  | save (source_type content : String) (embedding : List ℚ) (source_id : Option String)
  | del (source_type : String) (source_id : Option String)

/-- Apply one write operation. -/
def apply_op (s : Store) : StoreOp → Store
  | .save t c e sid => (save_embedding s t c e sid).1
  | .del t sid => (delete_embeddings_by_source s t sid).1

/-- Run a sequence of writes against the freshly initialised database. -/
def apply_ops (ops : List StoreOp) : Store :=
  ops.foldl apply_op empty_store

/-- Consistency of the three coupled structures: the vector table and the
lexical index list exactly the ids of the metadata table, those ids are
pairwise distinct, and all sit below the AUTOINCREMENT counter. -/
def StoreKeysAligned (s : Store) : Prop :=
  s.vec.map Prod.fst = s.meta.map Prod.fst ∧
  s.fts.map Prod.fst = s.meta.map Prod.fst ∧
  (s.meta.map Prod.fst).Nodup ∧
  ∀ i ∈ s.meta.map Prod.fst, i < s.next_id

theorem map_fst_filter_contains {α : Type} (l : List (Nat × α)) (ids : List Nat) :
    (l.filter (fun p => !(ids.contains p.1))).map Prod.fst
      = (l.map Prod.fst).filter (fun i => !(ids.contains i)) := by
  induction l with
  | nil => rfl
  | cons a t ih =>
    have ih' : List.map Prod.fst (List.filter (fun p => !decide (p.1 ∈ ids)) t) =
        List.filter (fun i => !decide (i ∈ ids)) (List.map Prod.fst t) := by
      simpa using ih
    by_cases h : a.1 ∈ ids
    · simp [List.filter_cons, h, ih']
    · simp [List.filter_cons, h, ih']

theorem aligned_empty : StoreKeysAligned empty_store := by
  refine ⟨rfl, rfl, List.nodup_nil, ?_⟩
  intro i hi
  simp [empty_store] at hi

theorem aligned_save (s : Store) (t c : String) (e : List ℚ) (sid : Option String)
    (h : StoreKeysAligned s) : StoreKeysAligned (save_embedding s t c e sid).1 := by
  obtain ⟨hv, hf, hn, hb⟩ := h
  refine ⟨?_, ?_, ?_, ?_⟩
  · simp [save_embedding, hv]
  · simp [save_embedding, hf]
  · simp only [save_embedding, List.map_append, List.map_cons, List.map_nil]
    rw [List.nodup_append]
    refine ⟨hn, List.nodup_singleton _, ?_⟩
    intro a ha hb'
    have hb2 : a = s.next_id := by simpa using hb'
    have := hb a ha
    omega
  · intro i hi
    simp only [save_embedding, List.map_append, List.map_cons, List.map_nil,
      List.mem_append, List.mem_singleton] at hi ⊢
    rcases hi with hi | hi
    · have := hb i hi
      omega
    · omega

theorem aligned_delete (s : Store) (t : String) (sid : Option String)
    (h : StoreKeysAligned s) : StoreKeysAligned (delete_embeddings_by_source s t sid).1 := by
  obtain ⟨hv, hf, hn, hb⟩ := h
  by_cases hnil : delete_ids s t sid = []
  · simp only [delete_embeddings_by_source, if_pos hnil]
    exact ⟨hv, hf, hn, hb⟩
  · simp only [delete_embeddings_by_source, if_neg hnil]
    refine ⟨?_, ?_, ?_, ?_⟩
    · rw [map_fst_filter_contains, map_fst_filter_contains, hv]
    · rw [map_fst_filter_contains, map_fst_filter_contains, hf]
    · rw [map_fst_filter_contains]
      exact hn.filter _
    · intro i hi
      rw [map_fst_filter_contains] at hi
      exact hb i (List.mem_of_mem_filter hi)

theorem aligned_apply_ops (ops : List StoreOp) : StoreKeysAligned (apply_ops ops) := by
  suffices h : ∀ s, StoreKeysAligned s → StoreKeysAligned (ops.foldl apply_op s) from
    h empty_store aligned_empty
  induction ops with
  | nil => intro s hs; exact hs
  | cons op rest ih =>
    intro s hs
    refine ih _ ?_
    cases op with
    | save t c e sid => exact aligned_save s t c e sid hs
    | del t sid => exact aligned_delete s t sid hs

/-- C1: starting from the empty store, after every sequence of save_embedding
and delete_embeddings_by_source operations, every id present in the metadata
table has exactly one vector entry and exactly one lexical-index entry, and
every id absent from the metadata table has no vector and no lexical entry. -/
theorem store_consistency_invariant (ops : List StoreOp) (id : Nat) :
    (id ∈ (apply_ops ops).meta.map Prod.fst →
      ((apply_ops ops).meta.map Prod.fst).count id = 1 ∧
      ((apply_ops ops).vec.map Prod.fst).count id = 1 ∧
      ((apply_ops ops).fts.map Prod.fst).count id = 1) ∧
    (id ∉ (apply_ops ops).meta.map Prod.fst →
      ((apply_ops ops).vec.map Prod.fst).count id = 0 ∧
      ((apply_ops ops).fts.map Prod.fst).count id = 0) := by
  obtain ⟨hv, hf, hn, _⟩ := aligned_apply_ops ops
  constructor
  · intro hmem
    have h1 : ((apply_ops ops).meta.map Prod.fst).count id = 1 :=
      List.count_eq_one_of_mem hn hmem
    exact ⟨h1, by rw [hv]; exact h1, by rw [hf]; exact h1⟩
  · intro hmem
    refine ⟨?_, ?_⟩
    · rw [hv]; exact List.count_eq_zero_of_not_mem hmem
    · rw [hf]; exact List.count_eq_zero_of_not_mem hmem

/-- Concrete operation sequence used to witness the store invariant. -/
def ops_example : List StoreOp :=
  [StoreOp.save "post" "hello world" [1, 0] (some "p1"),
   StoreOp.save "business_doc" "pricing" [0, 1] (some "page-42"),
   StoreOp.del "post" (some "p1")]

theorem store_consistency_invariant_witness :
    ((apply_ops ops_example).meta.map Prod.fst).count 2 = 1 ∧
    ((apply_ops ops_example).vec.map Prod.fst).count 2 = 1 ∧
    ((apply_ops ops_example).vec.map Prod.fst).count 1 = 0 := by
  refine ⟨((store_consistency_invariant ops_example 2).1 (by decide)).1,
    ((store_consistency_invariant ops_example 2).1 (by decide)).2.1,
    ((store_consistency_invariant ops_example 1).2 (by decide)).1⟩

/-- A record matches a delete request (source_type, source_id) in the sense of
the specification: equal source_type, and equal source_id when one is given. -/
def matches_source (t : String) (sid : Option String) (r : MetaRow) : Prop :=
  r.source_type = t ∧ (sid = none ∨ r.source_id = sid)

instance matches_source_decidable (t : String) (sid : Option String) (r : MetaRow) :
    Decidable (matches_source t sid r) :=
  inferInstanceAs (Decidable (r.source_type = t ∧ (sid = none ∨ r.source_id = sid)))

/-- C10: deleting with the empty string as source_id takes the falsy branch of
the Python `if source_id:` and therefore behaves exactly like source_id=None,
deleting all records of the given type. -/
theorem delete_empty_string_source_id (s : Store) (t : String) :
    delete_embeddings_by_source s t (some "") = delete_embeddings_by_source s t none := rfl

theorem delete_pred_iff_matches (t : String) (sid : Option String) (hsid : sid ≠ some "")
    (p : Nat × MetaRow) : delete_pred t sid p = true ↔ matches_source t sid p.2 := by
  cases sid with
  | none => simp [delete_pred, pyTruthyStr, matches_source]
  | some x =>
    have hx : ¬(x = "") := fun h => hsid (by rw [h])
    simp [delete_pred, pyTruthyStr, hx, matches_source]

theorem delete_ids_nil_of_no_match (s : Store) (t : String) (sid : Option String)
    (hsid : sid ≠ some "") (h : ∀ p ∈ s.meta, ¬ matches_source t sid p.2) :
    delete_ids s t sid = [] := by
  unfold delete_ids
  have hf : s.meta.filter (delete_pred t sid) = [] := by
    apply List.filter_eq_nil_iff.mpr
    intro p hp
    intro hpred
    exact h p hp ((delete_pred_iff_matches t sid hsid p).mp hpred)
  rw [hf]
  rfl

theorem delete_ids_of_deleted_nil (s : Store) (t : String) (sid : Option String) :
    delete_ids (delete_embeddings_by_source s t sid).1 t sid = [] := by
  by_cases h : delete_ids s t sid = []
  · simp only [delete_embeddings_by_source, if_pos h]
    exact h
  · have hmeta1 : (delete_embeddings_by_source s t sid).1.meta
        = s.meta.filter (fun p => !((delete_ids s t sid).contains p.1)) := by
      simp [delete_embeddings_by_source, h]
    unfold delete_ids
    rw [hmeta1]
    have hf : (s.meta.filter
        (fun p => !((delete_ids s t sid).contains p.1))).filter (delete_pred t sid) = [] := by
      apply List.filter_eq_nil_iff.mpr
      intro p hp hpred
      have hmem := List.mem_of_mem_filter hp
      have hflt := List.of_mem_filter hp
      have hin : p.1 ∈ delete_ids s t sid :=
        List.mem_map_of_mem _ (List.mem_filter.mpr ⟨hmem, hpred⟩)
      have hout : p.1 ∉ delete_ids s t sid := by simpa using hflt
      exact hout hin
    rw [hf]
    rfl

/-- C6 (amended): deleting a source that matches no record is a no-op
returning 0 provided the source_id is not the empty string (an empty-string
source_id is falsy in Python and instead deletes every record of that
source_type), and, for every source_type and source_id, the second of two
consecutive identical delete calls returns 0 and leaves the store unchanged. -/
theorem delete_by_source_noop_and_idempotent (s : Store) (t : String) (sid : Option String) :
    (sid ≠ some "" → (∀ p ∈ s.meta, ¬ matches_source t sid p.2) →
      delete_embeddings_by_source s t sid = (s, 0)) ∧
    delete_embeddings_by_source (delete_embeddings_by_source s t sid).1 t sid
      = ((delete_embeddings_by_source s t sid).1, 0) := by
  have hnil : ∀ s' : Store, delete_ids s' t sid = [] →
      delete_embeddings_by_source s' t sid = (s', 0) := by
    intro s' h
    simp [delete_embeddings_by_source, h]
  constructor
  · intro hsid hno
    exact hnil s (delete_ids_nil_of_no_match s t sid hsid hno)
  · exact hnil _ (delete_ids_of_deleted_nil s t sid)

/-- Concrete store holding a single post record with source_id "x". -/
def store_one_post : Store := (save_embedding empty_store "post" "hello" [1] (some "x")).1

theorem delete_by_source_noop_witness :
    delete_embeddings_by_source store_one_post "post" (some "nope") = (store_one_post, 0) ∧
    delete_embeddings_by_source
        (delete_embeddings_by_source store_one_post "post" (some "x")).1 "post" (some "x")
      = ((delete_embeddings_by_source store_one_post "post" (some "x")).1, 0) :=
  ⟨(delete_by_source_noop_and_idempotent store_one_post "post" (some "nope")).1
      (by decide) (by decide),
   (delete_by_source_noop_and_idempotent store_one_post "post" (some "x")).2⟩

/-- C6 counterexample: in a store holding one post record with source_id "x",
no record matches ("post", "") — yet deleting with the empty-string source_id
is not a no-op: the Python test `if source_id:` is falsy for "", so the call deletes
the record and returns 1 instead of 0. -/
theorem delete_by_source_noop_counterexample :
    (∀ p ∈ store_one_post.meta, ¬ matches_source "post" (some "") p.2) ∧
    delete_embeddings_by_source store_one_post "post" (some "") ≠ (store_one_post, 0) := by
  constructor
  · decide
  · decide

/- Chunker (src/workshop1/chunker.py).  Documents are modelled as lists of
characters so that paragraph splitting can be reasoned about directly. -/

/-- Characters removed by Python str.strip() and matched by the regex \s. -/
def pyWhitespace (c : Char) : Bool :=
  c = ' ' || c = '\t' || c = '\n' || c = '\r' || c = '\x0b' || c = '\x0c'

/-- Python str.strip(): drop leading and trailing whitespace. -/
def pyStrip (cs : List Char) : List Char :=
  ((cs.dropWhile pyWhitespace).reverse.dropWhile pyWhitespace).reverse

/-- Line-ending normalisation of chunker.py line 42: replace CRLF and CR by LF. -/
def normalize_newlines : List Char → List Char
  | [] => []
  | '\r' :: '\n' :: rest => '\n' :: normalize_newlines rest
  | '\r' :: rest => '\n' :: normalize_newlines rest
  | c :: rest => c :: normalize_newlines rest

/-- Prepend a character to the first piece of a split result. -/
def consHead (c : Char) : List (List Char) → List (List Char)
  | [] => [[c]]
  | p :: ps => (c :: p) :: ps

/-- Split on maximal runs of two or more newlines, the re.split of chunker.py
line 45.  The Bool flag records whether a run of newlines is being skipped. -/
def splitAux : Bool → List Char → List (List Char)
  | _, [] => [[]]
  | true, c :: rest =>
      if c = '\n' then splitAux true rest else consHead c (splitAux false rest)
  | false, [c] => [[c]]
  | false, c :: c2 :: rest2 =>
      if c = '\n' ∧ c2 = '\n' then [] :: splitAux true rest2
      else consHead c (splitAux false (c2 :: rest2))

/-- Whether the text contains a blank-line paragraph break (two consecutive
newlines). -/
def has_blank_line : List Char → Bool
  | [] => false
  | [_] => false
  | c :: c2 :: rest =>
      if c = '\n' ∧ c2 = '\n' then true else has_blank_line (c2 :: rest)

/-- split_into_paragraphs (chunker.py lines 32-53): normalise line endings,
split on blank lines, strip each piece, keep the non-empty pieces. -/
def split_into_paragraphs (content : List Char) : List (List Char) :=
  ((splitAux false (normalize_newlines content)).map pyStrip).filter (fun p => !p.isEmpty)

/-- Header detection of chunker.py line 121, re.match of one to three leading
number signs, then at least one whitespace character, then the rest of the
line.  On the stripped paragraphs this loop receives, the regex matches
exactly when the text after the whitespace run is non-empty and contains no
newline, and group(2).strip() is that text. -/
def header_match (para : List Char) : Option (List Char) :=
  let k := (para.takeWhile (· == '#')).length
  if 1 ≤ k ∧ k ≤ 3 then
    match para.drop k with
    | [] => none
    | c :: cs =>
      if pyWhitespace c then
        let tail := (c :: cs).dropWhile pyWhitespace
        if tail.isEmpty || tail.contains '\n' then none else some tail
      else none
  else none

/-- A produced chunk: the final content string together with the paragraphs
it was built from and the section that was current when it was closed (the
metadata dict of the source carries no information the claims need beyond
these). -/
structure Chunk where
  content : List Char
  parts : List (List Char)
  sec : Option (List Char)
deriving DecidableEq, Repr

/-- Python sep.join for character-list strings. -/
def joinWith (sep : List Char) : List (List Char) → List Char
  | [] => []
  | [x] => x
  | x :: y :: rest => x ++ sep ++ joinWith sep (y :: rest)

/-- Single newline separator. -/
def nl : List Char := ['\n']

/-- Blank-line separator between paragraphs of one chunk. -/
def nl2 : List Char := ['\n', '\n']

/-- Document-title context line injected by _build_chunk_content. -/
def doc_tag (title : List Char) : List Char := "[Document: ".data ++ title ++ "]".data

/-- Section context line injected by _build_chunk_content. -/
def sec_tag (s : List Char) : List Char := "[Section: ".data ++ s ++ "]".data

/-- Python truthiness of the tracked section: present and non-empty. -/
def secActive : Option (List Char) → Bool
  | none => false
  | some s => !s.isEmpty

/-- _build_chunk_content (chunker.py lines 165-182): optional title line,
optional section line, then the paragraphs joined by blank lines, all joined
with single newlines. -/
def build_chunk_content (title : List Char) (sec : Option (List Char))
    (paragraphs : List (List Char)) : List Char :=
  joinWith nl
    ((if title.isEmpty then [] else [doc_tag title]) ++
     (if secActive sec then [sec_tag (sec.getD [])] else []) ++
     [joinWith nl2 paragraphs])

/-- Package a closed chunk. -/
def mkChunk (title : List Char) (sec : Option (List Char))
    (parts : List (List Char)) : Chunk :=
  ⟨build_chunk_content title sec parts, parts, sec⟩

/-- Accumulator of the chunking loop: finished chunks, the running chunk
paragraphs, its character count, and the current section. -/
structure ChunkAcc where
  chunks : List Chunk
  cur : List (List Char)
  cur_chars : Nat
  sec : Option (List Char)

/-- Section update at the start of each loop iteration (chunker.py 121-123). -/
def chunk_sec (sec : Option (List Char)) (para : List Char) : Option (List Char) :=
  match header_match para with
  | some s => some s
  | none => sec

/-- Loop body of chunk_business_doc (chunker.py lines 117-145): update the
tracked section, close the running chunk when adding the paragraph would
exceed the maximum character budget and the chunk already meets the minimum,
then append the paragraph to the running chunk. -/
def chunk_step (title : List Char) (max_chars min_chars : Nat)
    (st : ChunkAcc) (para : List Char) : ChunkAcc :=
  if max_chars < st.cur_chars + para.length ∧ min_chars ≤ st.cur_chars then
    ⟨st.chunks ++ [mkChunk title (chunk_sec st.sec para) st.cur],
     [para], para.length, chunk_sec st.sec para⟩
  else
    ⟨st.chunks, st.cur ++ [para], st.cur_chars + para.length, chunk_sec st.sec para⟩

/-- Character budget per token (chunker.py line 16). -/
def CHARS_PER_TOKEN : Nat := 4

/-- chunk_business_doc (chunker.py lines 78-162): split into paragraphs,
fold the grouping loop over them, and close the trailing chunk.  The token
budgets default to 500 and 250 in the source. -/
def chunk_business_doc (content title : List Char)
    (max_tokens min_tokens : Nat) : List Chunk :=
  let max_chars := max_tokens * CHARS_PER_TOKEN
  let min_chars := min_tokens * CHARS_PER_TOKEN
  let paragraphs := split_into_paragraphs content
  if paragraphs.isEmpty then []
  else
    let st := paragraphs.foldl (chunk_step title max_chars min_chars) ⟨[], [], 0, none⟩
    st.chunks ++ (if st.cur.isEmpty then [] else [mkChunk title st.sec st.cur])

/-- Total number of characters in a list of paragraphs. -/
def sumLen (l : List (List Char)) : Nat := (l.map List.length).sum

/-- A chunk as emitted by the loop: content built by _build_chunk_content
from its recorded section and paragraphs, and at least one paragraph. -/
def GoodChunk (title : List Char) (c : Chunk) : Prop :=
  c.content = build_chunk_content title c.sec c.parts ∧ c.parts ≠ []

theorem chunk_step_flatten (title : List Char) (maxc minc : Nat)
    (st : ChunkAcc) (p : List Char) :
    ((chunk_step title maxc minc st p).chunks.map Chunk.parts).flatten
      ++ (chunk_step title maxc minc st p).cur
    = (st.chunks.map Chunk.parts).flatten ++ st.cur ++ [p] := by
  by_cases h : maxc < st.cur_chars + p.length ∧ minc ≤ st.cur_chars
  · simp [chunk_step, h, mkChunk]
  · simp [chunk_step, h]

theorem chunk_fold_flatten (title : List Char) (maxc minc : Nat) :
    ∀ (ps : List (List Char)) (st : ChunkAcc),
      ((ps.foldl (chunk_step title maxc minc) st).chunks.map Chunk.parts).flatten
        ++ (ps.foldl (chunk_step title maxc minc) st).cur
      = (st.chunks.map Chunk.parts).flatten ++ st.cur ++ ps := by
  intro ps
  induction ps with
  | nil => intro st; simp
  | cons p rest ih =>
    intro st
    rw [List.foldl_cons, ih (chunk_step title maxc minc st p), chunk_step_flatten]
    simp

theorem chunk_step_chars (title : List Char) (maxc minc : Nat)
    (st : ChunkAcc) (p : List Char) (h : st.cur_chars = sumLen st.cur) :
    (chunk_step title maxc minc st p).cur_chars
      = sumLen (chunk_step title maxc minc st p).cur := by
  unfold chunk_step
  by_cases hc : maxc < st.cur_chars + p.length ∧ minc ≤ st.cur_chars
  · rw [if_pos hc]
    simp [sumLen]
  · rw [if_neg hc]
    simp [sumLen, h]

theorem chunk_step_good (title : List Char) (maxc minc : Nat)
    (st : ChunkAcc) (p : List Char) (hmin : 0 < minc)
    (hchars : st.cur_chars = sumLen st.cur)
    (hgood : ∀ c ∈ st.chunks, GoodChunk title c) :
    ∀ c ∈ (chunk_step title maxc minc st p).chunks, GoodChunk title c := by
  by_cases hc : maxc < st.cur_chars + p.length ∧ minc ≤ st.cur_chars
  · intro c hcm
    simp only [chunk_step, if_pos hc, List.mem_append, List.mem_singleton] at hcm
    rcases hcm with hcm | hcm
    · exact hgood c hcm
    · subst hcm
      refine ⟨rfl, ?_⟩
      have hpos : 0 < sumLen st.cur := by
        have := hc.2
        omega
      intro hnil
      simp only [mkChunk] at hnil
      rw [hnil] at hpos
      simp [sumLen] at hpos
  · intro c hcm
    simp only [chunk_step, if_neg hc] at hcm
    exact hgood c hcm

theorem chunk_fold_good (title : List Char) (maxc minc : Nat) (hmin : 0 < minc) :
    ∀ (ps : List (List Char)) (st : ChunkAcc),
      st.cur_chars = sumLen st.cur →
      (∀ c ∈ st.chunks, GoodChunk title c) →
      ((ps.foldl (chunk_step title maxc minc) st).cur_chars
        = sumLen (ps.foldl (chunk_step title maxc minc) st).cur) ∧
      (∀ c ∈ (ps.foldl (chunk_step title maxc minc) st).chunks, GoodChunk title c) := by
  intro ps
  induction ps with
  | nil => intro st h1 h2; exact ⟨h1, h2⟩
  | cons p rest ih =>
    intro st h1 h2
    exact ih _ (chunk_step_chars title maxc minc st p h1)
      (chunk_step_good title maxc minc st p hmin h1 h2)

theorem chunk_business_doc_flatten (content title : List Char) (maxT minT : Nat) :
    ((chunk_business_doc content title maxT minT).map Chunk.parts).flatten
      = split_into_paragraphs content := by
  unfold chunk_business_doc
  by_cases hp : (split_into_paragraphs content).isEmpty
  · rw [List.isEmpty_iff] at hp
    simp [hp]
  · have hfold := chunk_fold_flatten title (maxT * CHARS_PER_TOKEN) (minT * CHARS_PER_TOKEN)
      (split_into_paragraphs content) ⟨[], [], 0, none⟩
    simp only [List.map_nil, List.flatten_nil, List.nil_append] at hfold
    simp only [hp, Bool.false_eq_true, if_false]
    by_cases hcur : ((split_into_paragraphs content).foldl
        (chunk_step title (maxT * CHARS_PER_TOKEN) (minT * CHARS_PER_TOKEN))
        ⟨[], [], 0, none⟩).cur.isEmpty
    · rw [List.isEmpty_iff] at hcur
      rw [hcur] at hfold
      simp only [List.append_nil] at hfold
      simp [hcur, hfold]
    · simp only [hcur, Bool.false_eq_true, if_false]
      simp only [List.map_append, List.map_cons, List.map_nil, List.flatten_append,
        List.flatten_cons, List.flatten_nil, List.append_nil, mkChunk]
      exact hfold

theorem chunk_business_doc_good (content title : List Char) (maxT minT : Nat)
    (hmin : 1 ≤ minT) :
    ∀ c ∈ chunk_business_doc content title maxT minT, GoodChunk title c := by
  unfold chunk_business_doc
  by_cases hp : (split_into_paragraphs content).isEmpty
  · simp [hp]
  · have hminc : 0 < minT * CHARS_PER_TOKEN := by
      unfold CHARS_PER_TOKEN
      omega
    have hfold := chunk_fold_good title (maxT * CHARS_PER_TOKEN) (minT * CHARS_PER_TOKEN)
      hminc (split_into_paragraphs content) ⟨[], [], 0, none⟩ (by simp [sumLen])
      (by intro c hc; simp at hc)
    simp only [hp, Bool.false_eq_true, if_false]
    intro c hc
    rw [List.mem_append] at hc
    rcases hc with hc | hc
    · exact hfold.2 c hc
    · by_cases hcur : ((split_into_paragraphs content).foldl
          (chunk_step title (maxT * CHARS_PER_TOKEN) (minT * CHARS_PER_TOKEN))
          ⟨[], [], 0, none⟩).cur.isEmpty
      · simp [hcur] at hc
      · simp only [hcur, Bool.false_eq_true, if_false, List.mem_singleton] at hc
        subst hc
        refine ⟨rfl, ?_⟩
        intro hnil
        simp only [mkChunk] at hnil
        exact hcur (List.isEmpty_iff.mpr hnil)

theorem splitAux_no_blank : ∀ cs : List Char, has_blank_line cs = false →
    splitAux false cs = [cs] := by
  intro cs
  induction cs with
  | nil => intro _; rfl
  | cons c rest ih =>
    intro h
    match rest with
    | [] => rfl
    | c2 :: rest2 =>
      have hcond : ¬(c = '\n' ∧ c2 = '\n') := by
        intro hc
        simp [has_blank_line, hc] at h
      have hrest : has_blank_line (c2 :: rest2) = false := by
        simpa [has_blank_line, hcond] using h
      rw [show splitAux false (c :: c2 :: rest2)
          = consHead c (splitAux false (c2 :: rest2)) by simp [splitAux, hcond]]
      rw [ih hrest]
      rfl

theorem split_into_paragraphs_no_blank (content : List Char)
    (hb : has_blank_line (normalize_newlines content) = false)
    (hs : (pyStrip (normalize_newlines content)).isEmpty = false) :
    split_into_paragraphs content = [pyStrip (normalize_newlines content)] := by
  unfold split_into_paragraphs
  rw [splitAux_no_blank _ hb]
  simp [hs]

theorem chunk_business_doc_single (content title p : List Char) (maxT minT : Nat)
    (hmin : 1 ≤ minT) (hp : split_into_paragraphs content = [p]) :
    chunk_business_doc content title maxT minT
      = [mkChunk title (chunk_sec none p) [p]] := by
  unfold chunk_business_doc
  rw [hp]
  have h0 : ¬(minT * CHARS_PER_TOKEN ≤ 0) := by
    unfold CHARS_PER_TOKEN
    omega
  simp [chunk_step, h0]

/-- C4: the grouping loop of chunk_business_doc closes the running chunk
before adding a paragraph exactly when adding it would exceed the maximum
character budget and the chunk already meets the minimum budget; paragraphs
are never split, so the emitted paragraph groups of the chunks flatten back to the
exact paragraph sequence; a single paragraph exceeding the maximum is emitted
whole as one chunk; a document with no blank-line paragraph break and
non-whitespace content produces exactly one chunk; a document producing zero
paragraphs produces zero chunks.  Budgets are in tokens of CHARS_PER_TOKEN
characters; the source defaults max_tokens to 500 and min_tokens to 250. -/
theorem chunk_business_doc_grouping (title : List Char) (maxT minT : Nat) :
    (∀ (st : ChunkAcc) (q : List Char),
      (chunk_step title (maxT * CHARS_PER_TOKEN) (minT * CHARS_PER_TOKEN) st q).chunks
          ≠ st.chunks
        ↔ (maxT * CHARS_PER_TOKEN < st.cur_chars + q.length
            ∧ minT * CHARS_PER_TOKEN ≤ st.cur_chars)) ∧
    (∀ content : List Char,
      ((chunk_business_doc content title maxT minT).map Chunk.parts).flatten
        = split_into_paragraphs content) ∧
    (∀ content p : List Char, 1 ≤ minT → split_into_paragraphs content = [p] →
      maxT * CHARS_PER_TOKEN < p.length →
      (chunk_business_doc content title maxT minT).map Chunk.parts = [[p]]) ∧
    (∀ content : List Char, 1 ≤ minT →
      has_blank_line (normalize_newlines content) = false →
      (pyStrip (normalize_newlines content)).isEmpty = false →
      (chunk_business_doc content title maxT minT).length = 1) ∧
    (∀ content : List Char, split_into_paragraphs content = [] →
      chunk_business_doc content title maxT minT = []) := by
  refine ⟨?_, ?_, ?_, ?_, ?_⟩
  · intro st q
    constructor
    · intro hne
      by_contra hc
      exact hne (by simp [chunk_step, hc])
    · intro hc
      simp only [chunk_step, if_pos hc]
      intro heq
      have := congrArg List.length heq
      simp at this
  · intro content
    exact chunk_business_doc_flatten content title maxT minT
  · intro content p hmin hp _
    rw [chunk_business_doc_single content title p maxT minT hmin hp]
    rfl
  · intro content hmin hb hs
    rw [chunk_business_doc_single content title (pyStrip (normalize_newlines content))
      maxT minT hmin (split_into_paragraphs_no_blank content hb hs)]
    rfl
  · intro content hp
    unfold chunk_business_doc
    rw [hp]
    rfl

theorem chunk_business_doc_grouping_witness :
    (chunk_business_doc "abcdefgh".data [] 1 1).map Chunk.parts = [["abcdefgh".data]] ∧
    (chunk_business_doc "hi there".data [] 1 1).length = 1 :=
  ⟨(chunk_business_doc_grouping [] 1 1).2.2.1 "abcdefgh".data "abcdefgh".data
      (by decide) (by decide) (by decide),
   (chunk_business_doc_grouping [] 1 1).2.2.2.1 "hi there".data
      (by decide) (by decide) (by decide)⟩

/-- The context lines injected at the front of the content of a chunk: the title
line when the title is non-empty, then the section line when a section is
active, each followed by the joining newline. -/
def ctx_tag (title : List Char) (sec : Option (List Char)) : List Char :=
  (if title.isEmpty then [] else doc_tag title ++ nl) ++
  (if secActive sec then sec_tag (sec.getD []) ++ nl else [])

theorem build_eq_ctx (title : List Char) (sec : Option (List Char))
    (parts : List (List Char)) :
    build_chunk_content title sec parts = ctx_tag title sec ++ joinWith nl2 parts := by
  unfold build_chunk_content ctx_tag
  by_cases h1 : title.isEmpty <;> by_cases h2 : secActive sec <;>
    simp [h1, h2, joinWith, List.append_assoc]

theorem joinWith_cons_of_ne (sep x : List Char) (l : List (List Char)) (h : l ≠ []) :
    joinWith sep (x :: l) = x ++ sep ++ joinWith sep l := by
  match l with
  | y :: rest => rfl

theorem joinWith_ne_nil (sep : List Char) (ps : List (List Char))
    (h : ps ≠ []) (hh : ∀ p ∈ ps, p ≠ []) : joinWith sep ps ≠ [] := by
  match ps with
  | [x] =>
    have := hh x (by simp)
    simpa [joinWith] using this
  | x :: y :: rest =>
    have hx := hh x (by simp)
    rw [joinWith_cons_of_ne sep x (y :: rest) (by simp)]
    intro he
    rw [List.append_assoc] at he
    exact hx (List.append_eq_nil.mp he).1

theorem joinWith_append (sep : List Char) :
    ∀ a b : List (List Char), a ≠ [] → b ≠ [] →
      joinWith sep (a ++ b) = joinWith sep a ++ sep ++ joinWith sep b := by
  intro a
  induction a with
  | nil => intro b h; exact absurd rfl h
  | cons x a' ih =>
    intro b _ hb
    by_cases ha' : a' = []
    · subst ha'
      rw [List.singleton_append, joinWith_cons_of_ne sep x b hb]
      rfl
    · rw [List.cons_append,
        joinWith_cons_of_ne sep x (a' ++ b) (by simp [ha']),
        ih b ha' hb,
        joinWith_cons_of_ne sep x a' ha']
      simp [List.append_assoc]

theorem joinWith_flatten (sep : List Char) :
    ∀ gs : List (List (List Char)), (∀ g ∈ gs, g ≠ []) →
      joinWith sep (gs.map (joinWith sep)) = joinWith sep gs.flatten := by
  intro gs
  induction gs with
  | nil => intro _; rfl
  | cons g gs' ih =>
    intro h
    by_cases hg : gs' = []
    · subst hg
      simp [joinWith]
    · have hne : ∀ g' ∈ gs', g' ≠ [] := fun g' hg' => h g' (by simp [hg'])
      have hgne : g ≠ [] := h g (by simp)
      have hflat : gs'.flatten ≠ [] := by
        rcases gs' with _ | ⟨g', rest⟩
        · exact absurd rfl hg
        · have hg'ne := hne g' (by simp)
          simp only [List.flatten_cons]
          intro he
          exact hg'ne (List.append_eq_nil.mp he).1
      rw [List.map_cons,
        joinWith_cons_of_ne sep (joinWith sep g) (gs'.map (joinWith sep)) (by simp [hg]),
        ih hne, List.flatten_cons, joinWith_append sep g gs'.flatten hgne hflat]

/-- C5: for every document yielding at least one paragraph (and a positive
minimum budget, as in the source defaults), chunk_business_doc never produces
a chunk whose content is the empty string; the content of each chunk is exactly
the injected context tag followed by its paragraphs joined by blank lines, so
stripping the injected [Document: ...] and [Section: ...] lines leaves the
paragraph groups of the chunks, which flatten back to split_into_paragraphs in
order, and joining the stripped remainders reproduces the joined paragraph
sequence. -/
theorem chunk_content_reconstruction (content title : List Char) (maxT minT : Nat)
    (hmin : 1 ≤ minT) (_hne : split_into_paragraphs content ≠ []) :
    (∀ c ∈ chunk_business_doc content title maxT minT,
      c.content ≠ [] ∧ c.content = ctx_tag title c.sec ++ joinWith nl2 c.parts) ∧
    ((chunk_business_doc content title maxT minT).map Chunk.parts).flatten
      = split_into_paragraphs content ∧
    joinWith nl2 ((chunk_business_doc content title maxT minT).map
        (fun c => joinWith nl2 c.parts))
      = joinWith nl2 (split_into_paragraphs content) := by
  have hflat := chunk_business_doc_flatten content title maxT minT
  have hgood := chunk_business_doc_good content title maxT minT hmin
  have hpara : ∀ p ∈ split_into_paragraphs content, p ≠ [] := by
    intro p hp
    unfold split_into_paragraphs at hp
    have := List.of_mem_filter hp
    simp only [Bool.not_eq_true'] at this
    intro hnil
    rw [hnil] at this
    simp at this
  have hparts_mem : ∀ c ∈ chunk_business_doc content title maxT minT,
      ∀ p ∈ c.parts, p ≠ [] := by
    intro c hc p hp
    apply hpara
    rw [← hflat]
    exact List.mem_flatten.mpr ⟨c.parts, List.mem_map_of_mem _ hc, hp⟩
  refine ⟨?_, hflat, ?_⟩
  · intro c hc
    have h2 : c.content = ctx_tag title c.sec ++ joinWith nl2 c.parts := by
      rw [(hgood c hc).1, build_eq_ctx]
    refine ⟨?_, h2⟩
    rw [h2]
    have hj : joinWith nl2 c.parts ≠ [] :=
      joinWith_ne_nil nl2 c.parts (hgood c hc).2 (hparts_mem c hc)
    intro hcontra
    exact hj (List.append_eq_nil.mp hcontra).2
  · have hgroups : ∀ g ∈ (chunk_business_doc content title maxT minT).map Chunk.parts,
        g ≠ [] := by
      intro g hg
      obtain ⟨c, hc, hcg⟩ := List.mem_map.mp hg
      rw [← hcg]
      exact (hgood c hc).2
    rw [show (chunk_business_doc content title maxT minT).map (fun c => joinWith nl2 c.parts)
        = ((chunk_business_doc content title maxT minT).map Chunk.parts).map (joinWith nl2) by
      rw [List.map_map]; rfl]
    rw [joinWith_flatten nl2 _ hgroups, hflat]

theorem chunk_content_reconstruction_witness :
    joinWith nl2 ((chunk_business_doc "ab\n\ncd".data ['T'] 1 1).map
        (fun c => joinWith nl2 c.parts))
      = joinWith nl2 (split_into_paragraphs "ab\n\ncd".data) :=
  (chunk_content_reconstruction "ab\n\ncd".data ['T'] 1 1 (by decide) (by decide)).2.2

/- Fusion search engine (vector_db.py lines 265-527).  Scores are rationals;
raw BM25 scores and per-row cosine distances are produced inside SQLite
(FTS5 and sqlite-vec), so they enter the embedding as explicit inputs. -/

/-- normalize_bm25_scores (vector_db.py lines 375-393): min-max inversion of
the negative FTS5 scores; a single distinct value normalizes to 1.0. -/
def normalize_bm25_scores : List (Nat × ℚ) → List (Nat × ℚ)
  | [] => []
  | (i, v) :: rest =>
    let scores := ((i, v) :: rest).map Prod.snd
    let min_score := scores.foldl min v
    let max_score := scores.foldl max v
    if min_score = max_score then ((i, v) :: rest).map (fun p => (p.1, 1))
    else ((i, v) :: rest).map
      (fun p => (p.1, (max_score - p.2) / (max_score - min_score)))

/-- normalize_distances (vector_db.py lines 396-418): convert cosine distance
to similarity 1 - d/2, then min-max normalize; a single distinct similarity
normalizes to 1.0. -/
def normalize_distances : List (Nat × ℚ) → List (Nat × ℚ)
  | [] => []
  | (i, d) :: rest =>
    let sims := ((i, d) :: rest).map (fun p => (p.1, 1 - p.2 / 2))
    let vals := sims.map Prod.snd
    let min_sim := vals.foldl min (1 - d / 2)
    let max_sim := vals.foldl max (1 - d / 2)
    if min_sim = max_sim then sims.map (fun p => (p.1, 1))
    else sims.map (fun p => (p.1, (p.2 - min_sim) / (max_sim - min_sim)))

/-- Python dict.get(id, 0.0) over an association list of scores. -/
def lookup0 (m : List (Nat × ℚ)) (id : Nat) : ℚ :=
  ((m.find? (fun p => p.1 == id)).map Prod.snd).getD 0

/-- Row lookup of get_metadata_by_ids (vector_db.py lines 421-445). -/
def lookupMeta (meta : List (Nat × MetaRow)) (id : Nat) : Option MetaRow :=
  (meta.find? (fun p => p.1 == id)).map Prod.snd

/-- One hybrid search result row (vector_db.py lines 511-522). -/
structure HybridResult where
  id : Nat
  content : String
  source_type : String
  source_id : Option String
  bm25_score : ℚ
  semantic_score : ℚ
  final_score : ℚ
deriving DecidableEq, Repr

/-- Stable insertion modelling the stable Python list.sort with
key=final_score and reverse=True: the inserted element goes after every
already-placed element whose final score is strictly larger, and before
elements with an equal or smaller score (it preceded them in the input). -/
def insert_desc (r : HybridResult) : List HybridResult → List HybridResult
  | [] => [r]
  | x :: xs =>
    if r.final_score < x.final_score then x :: insert_desc r xs
    else r :: x :: xs

/-- Stable descending sort by final score. -/
def sort_final_desc : List HybridResult → List HybridResult
  | [] => []
  | x :: xs => insert_desc x (sort_final_desc xs)

theorem mem_insert_desc (r y : HybridResult) (l : List HybridResult) :
    y ∈ insert_desc r l ↔ y = r ∨ y ∈ l := by
  induction l with
  | nil => simp [insert_desc]
  | cons x xs ih =>
    by_cases h : r.final_score < x.final_score
    · simp only [insert_desc, if_pos h, List.mem_cons, ih]
      tauto
    · simp only [insert_desc, if_neg h, List.mem_cons]

theorem pairwise_insert_desc (r : HybridResult) (l : List HybridResult)
    (h : l.Pairwise (fun a b => b.final_score ≤ a.final_score)) :
    (insert_desc r l).Pairwise (fun a b => b.final_score ≤ a.final_score) := by
  induction l with
  | nil => simp [insert_desc]
  | cons x xs ih =>
    rw [List.pairwise_cons] at h
    by_cases hc : r.final_score < x.final_score
    · rw [show insert_desc r (x :: xs) = x :: insert_desc r xs by simp [insert_desc, hc]]
      rw [List.pairwise_cons]
      constructor
      · intro y hy
        rcases (mem_insert_desc r y xs).mp hy with hy | hy
        · rw [hy]; exact le_of_lt hc
        · exact h.1 y hy
      · exact ih h.2
    · rw [show insert_desc r (x :: xs) = r :: x :: xs by simp [insert_desc, hc]]
      rw [List.pairwise_cons]
      constructor
      · intro y hy
        rcases List.mem_cons.mp hy with hy | hy
        · rw [hy]; exact le_of_not_lt hc
        · exact le_trans (h.1 y hy) (le_of_not_lt hc)
      · exact List.pairwise_cons.mpr h

theorem perm_insert_desc (r : HybridResult) (l : List HybridResult) :
    List.Perm (insert_desc r l) (r :: l) := by
  induction l with
  | nil => exact List.Perm.refl _
  | cons x xs ih =>
    by_cases h : r.final_score < x.final_score
    · rw [show insert_desc r (x :: xs) = x :: insert_desc r xs by simp [insert_desc, h]]
      exact List.Perm.trans (List.Perm.cons x ih) (List.Perm.swap r x xs)
    · rw [show insert_desc r (x :: xs) = r :: x :: xs by simp [insert_desc, h]]

theorem sorted_sort_final_desc (l : List HybridResult) :
    (sort_final_desc l).Pairwise (fun a b => b.final_score ≤ a.final_score) := by
  induction l with
  | nil => simp [sort_final_desc]
  | cons x xs ih => exact pairwise_insert_desc x (sort_final_desc xs) ih

theorem perm_sort_final_desc (l : List HybridResult) :
    List.Perm (sort_final_desc l) l := by
  induction l with
  | nil => exact List.Perm.refl _
  | cons x xs ih =>
    exact List.Perm.trans (perm_insert_desc x (sort_final_desc xs)) (List.Perm.cons x ih)

/-- The result row built for a candidate id (vector_db.py lines 500-522). -/
def score_candidate (meta : List (Nat × MetaRow)) (bm25_normalized
    semantic_normalized : List (Nat × ℚ)) (keyword_weight semantic_weight : ℚ)
    (id : Nat) : HybridResult :=
  ⟨id,
   ((lookupMeta meta id).map MetaRow.content).getD "",
   ((lookupMeta meta id).map MetaRow.source_type).getD "",
   (match lookupMeta meta id with
    | none => some ""
    | some r => r.source_id),
   lookup0 bm25_normalized id,
   lookup0 semantic_normalized id,
   keyword_weight * lookup0 bm25_normalized id
     + semantic_weight * lookup0 semantic_normalized id⟩

/-- hybrid_search (vector_db.py lines 448-527), over the raw BM25 scores and
raw cosine distances returned by the two SQLite queries, and over an
enumeration all_ids of the candidate id set union: Python iterates the set
object all_ids, whose iteration order the language does not specify. -/
def hybrid_search (meta : List (Nat × MetaRow)) (bm25_raw semantic_raw : List (Nat × ℚ))
    (keyword_weight semantic_weight : ℚ) (top_k : Nat) (all_ids : List Nat) :
    List HybridResult :=
  if all_ids.isEmpty then []
  else
    (sort_final_desc (all_ids.map
      (score_candidate meta (normalize_bm25_scores bm25_raw)
        (normalize_distances semantic_raw) keyword_weight semantic_weight))).take top_k

/-- C2 (amended): for every store state, query scores and weights, and every
enumeration all_ids of the candidate id union (Python iterates an unordered
set here), hybrid_search gives each returned candidate the final score
keyword_weight * lexical_norm + semantic_weight * vector_norm with a score
missing from one side defaulting to 0, and returns candidates drawn from the
union sorted descending by final score and truncated to top_k; the sort is
the Python stable sort keyed on final score alone, so ties keep the set
iteration order and are NOT broken by ascending id. -/
theorem hybrid_search_score_and_order (meta : List (Nat × MetaRow))
    (bm25_raw semantic_raw : List (Nat × ℚ)) (kw sw : ℚ) (k : Nat)
    (all_ids : List Nat) (hnodup : all_ids.Nodup)
    (hunion : ∀ i ∈ all_ids, i ∈ bm25_raw.map Prod.fst ∨ i ∈ semantic_raw.map Prod.fst)
    (hcoverb : ∀ i ∈ bm25_raw.map Prod.fst, i ∈ all_ids)
    (hcovers : ∀ i ∈ semantic_raw.map Prod.fst, i ∈ all_ids) :
    (∀ r ∈ hybrid_search meta bm25_raw semantic_raw kw sw k all_ids,
      r.final_score = kw * lookup0 (normalize_bm25_scores bm25_raw) r.id
          + sw * lookup0 (normalize_distances semantic_raw) r.id
        ∧ r.id ∈ all_ids) ∧
    (hybrid_search meta bm25_raw semantic_raw kw sw k all_ids).Pairwise
      (fun a b => b.final_score ≤ a.final_score) ∧
    (hybrid_search meta bm25_raw semantic_raw kw sw k all_ids).length
      = min k all_ids.length := by
  by_cases hemp : all_ids.isEmpty
  · rw [List.isEmpty_iff] at hemp
    subst hemp
    refine ⟨?_, ?_, ?_⟩
    · intro r hr
      simp [hybrid_search] at hr
    · simp [hybrid_search]
    · simp [hybrid_search]
  · have hdef : hybrid_search meta bm25_raw semantic_raw kw sw k all_ids
        = (sort_final_desc (all_ids.map
            (score_candidate meta (normalize_bm25_scores bm25_raw)
              (normalize_distances semantic_raw) kw sw))).take k := by
      simp [hybrid_search, hemp]
    refine ⟨?_, ?_, ?_⟩
    · intro r hr
      rw [hdef] at hr
      have hr2 := List.mem_of_mem_take hr
      have hr3 := (perm_sort_final_desc _).mem_iff.mp hr2
      obtain ⟨i, hi, hri⟩ := List.mem_map.mp hr3
      rw [← hri]
      exact ⟨rfl, hi⟩
    · rw [hdef]
      exact (sorted_sort_final_desc _).sublist (List.take_sublist _ _)
    · rw [hdef, List.length_take, (perm_sort_final_desc _).length_eq, List.length_map]

/-- Concrete inputs used to witness the hybrid search properties. -/
def bm25_example : List (Nat × ℚ) := [(4, -2), (7, -1)]

/-- Concrete semantic distances used to witness the hybrid search properties. -/
def semantic_example : List (Nat × ℚ) := [(7, 0), (9, 1)]

theorem hybrid_search_score_and_order_witness :
    (∀ r ∈ hybrid_search [] bm25_example semantic_example 1 1 2 [4, 7, 9],
      r.final_score = 1 * lookup0 (normalize_bm25_scores bm25_example) r.id
          + 1 * lookup0 (normalize_distances semantic_example) r.id
        ∧ r.id ∈ [4, 7, 9]) ∧
    (hybrid_search [] bm25_example semantic_example 1 1 2 [4, 7, 9]).Pairwise
      (fun a b => b.final_score ≤ a.final_score) ∧
    (hybrid_search [] bm25_example semantic_example 1 1 2 [4, 7, 9]).length
      = min 2 [4, 7, 9].length :=
  hybrid_search_score_and_order [] bm25_example semantic_example 1 1 2 [4, 7, 9]
    (by decide) (by decide) (by decide) (by decide)

/-- C2 counterexample: one sole keyword hit (id 8) and one sole semantic
neighbour (id 1); each normalizes to 1.0 on its own side, so with weights
1/2, 1/2 both candidates tie at final score 1/2.  Cthe CPython iteration of the
set union {8, 1} yields [8, 1] (slots 0 and 1 of the hash table), and the
stable sort keyed on final score alone keeps that order: the result ids come
back [8, 1], not sorted by ascending id on the tie as the claim requires. -/
theorem hybrid_search_tie_counterexample :
    (hybrid_search [] [(8, -1)] [(1, 1/2)] (1/2) (1/2) 10 [8, 1]).map
        (fun r => r.id) = [8, 1] ∧
    (hybrid_search [] [(8, -1)] [(1, 1/2)] (1/2) (1/2) 10 [8, 1]).map
        (fun r => r.final_score) = [1/2, 1/2] ∧
    ([8, 1] : List Nat).Nodup ∧
    (∀ i ∈ ([8, 1] : List Nat),
      i ∈ ([(8, -1)] : List (Nat × ℚ)).map Prod.fst
        ∨ i ∈ ([(1, 1/2)] : List (Nat × ℚ)).map Prod.fst) := by
  refine ⟨?_, ?_, by decide, by decide⟩
  · norm_num [hybrid_search, normalize_bm25_scores, normalize_distances, score_candidate,
      lookup0, lookupMeta, sort_final_desc, insert_desc]
  · norm_num [hybrid_search, normalize_bm25_scores, normalize_distances, score_candidate,
      lookup0, lookupMeta, sort_final_desc, insert_desc]

/-- Ascending insertion by (distance, rowid): smaller distance first, ties
by smaller rowid. -/
def insert_dist (x : Nat × ℚ) : List (Nat × ℚ) → List (Nat × ℚ)
  | [] => [x]
  | y :: ys =>
    if y.2 < x.2 ∨ (y.2 = x.2 ∧ y.1 ≤ x.1) then y :: insert_dist x ys
    else x :: y :: ys

/-- Sort the vector rows by ascending (distance, rowid). -/
def sort_dist_asc : List (Nat × ℚ) → List (Nat × ℚ)
  | [] => []
  | x :: xs => insert_dist x (sort_dist_asc xs)

/-- The k-nearest-neighbour scan of the sqlite-vec virtual table, modelled on
the cosine distance of each stored row to the query embedding: the k rows of
smallest distance in ascending order (ties by ascending rowid, the
deterministic order the spec requires). -/
def knn (vec_dists : List (Nat × ℚ)) (k : Nat) : List (Nat × ℚ) :=
  (sort_dist_asc vec_dists).take k

/-- Python truthiness of an Optional[list]: None and the empty list are
falsy. -/
def pyTruthyList : Option (List String) → Bool
  | none => false
  | some l => !l.isEmpty

/-- semantic_search (vector_db.py lines 321-372): with a truthy source_types
filter, fetch the limit*2 nearest rows from the vector index, join them with
the metadata table keeping only matching source types, and truncate to
limit; without a filter fetch the limit nearest rows.  vec_dists lists each
cosine distance of each stored row to the query embedding. -/
def semantic_search (meta : List (Nat × MetaRow)) (vec_dists : List (Nat × ℚ))
    (limit : Nat) (source_types : Option (List String)) : List (Nat × ℚ) :=
  if pyTruthyList source_types then
    ((knn vec_dists (limit * 2)).filter (fun p =>
      match lookupMeta meta p.1 with
      | some r => (source_types.getD []).contains r.source_type
      | none => false)).take limit
  else
    (knn vec_dists limit).take limit

/-- Store rows for the semantic_search failing input: the two rows nearest
the query are posts, the third-nearest is the only business_doc. -/
def meta_filter_bug : List (Nat × MetaRow) :=
  [(1, ⟨"post", some "p1", "post one"⟩),
   (2, ⟨"post", some "p2", "post two"⟩),
   (3, ⟨"business_doc", some "d", "the doc"⟩)]

/-- Cosine distances of the three stored rows to the query: the posts are
nearer than the business_doc row. -/
def dists_filter_bug : List (Nat × ℚ) := [(1, 0), (2, 1), (3, 2)]

/-- C3 failing input: with limit 1 and filter business_doc, semantic_search
returns no rows even though row 3 matches the filter — the index scan is
truncated to limit*2 = 2 rows (both posts) before the type filter is
applied, so the closest matching record is missed; the same call with limit
3 does return row 3.  The claim (and the inline comment of the code, which says to
get all vector results first and then filter) requires the limit closest
records among those passing the filter. -/
theorem semantic_search_filter_miss :
    semantic_search meta_filter_bug dists_filter_bug 1 (some ["business_doc"]) = [] ∧
    semantic_search meta_filter_bug dists_filter_bug 3 (some ["business_doc"])
      = [(3, 2)] := by
  constructor
  · decide
  · decide

/-- The source types accepted by the delete endpoint
(api/routes/rag.py line 170). -/
def VALID_SOURCE_TYPES : List String := ["business_doc", "post", "reply"]

/-- retrieve_context (rag.py lines 40-82) composed with hybrid_search
(which issues the two store queries with an internal candidate limit of
100): the FTS5 scoring enters as the bm25fn parameter and the vector
distances as vec_dists.  The source performs no validation of the query
text or of the source_types filter — an input error would be the error
branch of the result, which is never taken. -/
def retrieve_context (meta : List (Nat × MetaRow)) (vec_dists : List (Nat × ℚ))
    (bm25fn : String → Option (List String) → List (Nat × ℚ))
    (query : String) (keyword_weight semantic_weight : ℚ) (top_k : Nat)
    (source_types : Option (List String)) (all_ids : List Nat) :
    Except String (List HybridResult) :=
  Except.ok (hybrid_search meta (bm25fn query source_types)
    (semantic_search meta vec_dists 100 source_types)
    keyword_weight semantic_weight top_k all_ids)

/-- The delete endpoint (api/routes/rag.py lines 155-194): validates the
source_type against the allowed values and rejects with HTTP 400 before
touching the store. -/
def delete_embeddings_route (s : Store) (source_type : String)
    (source_id : Option String) : Except Nat (Store × Nat) :=
  if source_type ∈ VALID_SOURCE_TYPES then
    Except.ok (delete_embeddings_by_source s source_type source_id)
  else
    Except.error 400

/-- C9 (amended): the search path performs no input validation — for every
store, query text (empty or not) and source_types filter (valid or not),
retrieve_context succeeds with the hybrid search result, never surfacing an
input error; only the delete endpoint validates source_type, rejecting
values outside business_doc, post, reply with HTTP 400 before touching the
store, and forwarding valid values to delete_embeddings_by_source. -/
theorem search_no_input_validation :
    (∀ (meta : List (Nat × MetaRow)) (vec_dists : List (Nat × ℚ))
        (bm25fn : String → Option (List String) → List (Nat × ℚ))
        (query : String) (kw sw : ℚ) (k : Nat)
        (types : Option (List String)) (ids : List Nat),
      retrieve_context meta vec_dists bm25fn query kw sw k types ids
        = Except.ok (hybrid_search meta (bm25fn query types)
            (semantic_search meta vec_dists 100 types) kw sw k ids)) ∧
    (∀ (s : Store) (t : String) (sid : Option String), t ∉ VALID_SOURCE_TYPES →
      delete_embeddings_route s t sid = Except.error 400) ∧
    (∀ (s : Store) (t : String) (sid : Option String), t ∈ VALID_SOURCE_TYPES →
      delete_embeddings_route s t sid
        = Except.ok (delete_embeddings_by_source s t sid)) := by
  refine ⟨fun _ _ _ _ _ _ _ _ _ => rfl, ?_, ?_⟩
  · intro s t sid h
    simp [delete_embeddings_route, h]
  · intro s t sid h
    simp [delete_embeddings_route, h]

theorem search_no_input_validation_witness :
    delete_embeddings_route empty_store "bogus" none = Except.error 400 ∧
    delete_embeddings_route empty_store "post" none
      = Except.ok (delete_embeddings_by_source empty_store "post" none) :=
  ⟨search_no_input_validation.2.1 empty_store "bogus" none (by decide),
   search_no_input_validation.2.2 empty_store "post" none (by decide)⟩

/-- Store row for the empty-query counterexample. -/
def meta_hello : List (Nat × MetaRow) := [(1, ⟨"post", some "x", "hello"⟩)]

/-- C9 counterexample: an empty query is not rejected.  FTS5 raises an
OperationalError on the empty match expression, which bm25_search catches,
returning no scores (vector_db.py lines 316-318); retrieve_context then
succeeds, and the vector query reads the store and returns the stored
record — no input error ever reaches the caller, and the store is touched. -/
theorem search_empty_query_counterexample :
    retrieve_context meta_hello [(1, 0)] (fun _ _ => []) "" (2/5) (3/5) 10 none [1]
      = Except.ok [⟨1, "hello", "post", some "x", 0, 1, 3/5⟩] := by
  norm_num [retrieve_context, hybrid_search, semantic_search, pyTruthyList, knn,
    sort_dist_asc, insert_dist, normalize_bm25_scores, normalize_distances,
    score_candidate, lookup0, lookupMeta, sort_final_desc, insert_desc, meta_hello]

/- Embedder (vector_db.py lines 125-154).  The fastembed model is the
external collaborator of the spec; it enters as an abstract batch function
from texts to vectors. -/

/-- generate_embedding (vector_db.py lines 125-137): embed a singleton batch
and take its first vector. -/
def generate_embedding (model : List String → List (List ℚ)) (text : String) :
    List ℚ :=
  (model [text]).headD []

/-- generate_embeddings_batch (vector_db.py lines 140-154): an empty input
returns the empty list before the model is even loaded; otherwise one
batched model call.  The second component counts model invocations. -/
def generate_embeddings_batch (model : List String → List (List ℚ))
    (texts : List String) : List (List ℚ) × Nat :=
  if texts.isEmpty then ([], 0) else (model texts, 1)

/-- C7: when the underlying model embeds batches pointwise — its contract
per the spec: batching must not change outputs — generate_embeddings_batch
equals mapping generate_embedding over the texts (in particular the batch of
a single text gives the embedding of that text), and the empty list returns the
empty list with zero model invocations. -/
theorem generate_embeddings_batch_equiv (model : List String → List (List ℚ))
    (f : String → List ℚ) (hmodel : ∀ ts, model ts = ts.map f)
    (texts : List String) :
    (generate_embeddings_batch model texts).1
        = texts.map (generate_embedding model) ∧
    generate_embeddings_batch model [] = ([], 0) := by
  constructor
  · cases texts with
    | nil => rfl
    | cons t ts =>
      have hne : (t :: ts).isEmpty = false := rfl
      rw [show (generate_embeddings_batch model (t :: ts)).1 = model (t :: ts) by
        simp [generate_embeddings_batch]]
      rw [hmodel]
      apply List.map_congr_left
      intro a _
      simp [generate_embedding, hmodel]
  · rfl

/-- The concrete pointwise model used to witness the batch equivalence. -/
def len_model : List String → List (List ℚ) :=
  fun ts => ts.map (fun s => [(s.length : ℚ)])

theorem generate_embeddings_batch_equiv_witness :
    (generate_embeddings_batch len_model ["a", "bb"]).1
        = ["a", "bb"].map (generate_embedding len_model) ∧
    generate_embeddings_batch len_model [] = ([], 0) :=
  generate_embeddings_batch_equiv len_model (fun s => [(s.length : ℚ)])
    (fun _ => rfl) ["a", "bb"]

/- Context formatter (rag.py lines 85-118). -/

/-- Two-decimal rendering of a non-negative hundredths count. -/
def two_decimals (n : Nat) : String :=
  Nat.repr (n / 100) ++ "." ++
    (if n % 100 < 10 then "0" ++ Nat.repr (n % 100) else Nat.repr (n % 100))

/-- The Python format :.2f applied to a score: sign-magnitude rendering,
rounding the magnitude to hundredths (here half-up; Python rounds the double
half-to-even, which differs only at exact midpoints and never changes the
rendered width the claims depend on). -/
def format2f (q : ℚ) : String :=
  if q.num < 0 then
    "-" ++ two_decimals (Int.fdiv (200 * (-q.num) + q.den) (2 * q.den)).toNat
  else
    two_decimals (Int.fdiv (200 * q.num + q.den) (2 * q.den)).toNat

/-- _get_source_label (rag.py lines 121-128). -/
def _get_source_label (source_type : String) : String :=
  if source_type = "business_doc" then "Business Documentation"
  else if source_type = "post" then "Previous Post"
  else if source_type = "reply" then "Previous Reply"
  else source_type

/-- The numbered, labelled entry header (rag.py line 104). -/
def entry_header (i : Nat) (r : HybridResult) : String :=
  "[" ++ Nat.repr i ++ ". " ++ _get_source_label r.source_type
    ++ "] (relevance: " ++ format2f r.final_score ++ ")"

/-- Python slice content[:n]. -/
def str_take (s : String) (n : Nat) : String := ⟨s.data.take n⟩

/-- Remaining budget for an entry (rag.py line 107). -/
def entry_available (max_chars chars_used : Nat) (header : String) : Int :=
  (max_chars : Int) - chars_used - header.length - 10

/-- Entry content, truncated with a "..." marker when it exceeds the
remaining budget (rag.py lines 111-112). -/
def entry_content (content : String) (available : Int) : String :=
  if (content.length : Int) > available
  then str_take content (available - 3).toNat ++ "..."
  else content

/-- The entry loop of format_context_for_prompt (rag.py lines 102-116):
stop when the remaining budget is at or below the fixed minimum of 100,
otherwise emit the header and the (possibly truncated) content and continue
with the updated character count. -/
def format_entries (max_chars : Nat) : List HybridResult → Nat → Nat → List String
  | [], _, _ => []
  | r :: rs, i, chars_used =>
    if entry_available max_chars chars_used (entry_header i r) ≤ 100 then []
    else
      let entry := entry_header i r ++ "\n"
        ++ entry_content r.content
            (entry_available max_chars chars_used (entry_header i r)) ++ "\n"
      entry :: format_entries max_chars rs (i + 1) (chars_used + entry.length)

/-- Python str.join. -/
def py_join (sep : String) : List String → String
  | [] => ""
  | [x] => x
  | x :: y :: rest => x ++ sep ++ py_join sep (y :: rest)

/-- format_context_for_prompt (rag.py lines 85-118): the fixed sentinel for
an empty result list, otherwise the entries joined by newlines.  The source
defaults max_chars to 4000. -/
def format_context_for_prompt (results : List HybridResult) (max_chars : Nat) : String :=
  if results.isEmpty then "No relevant context found."
  else py_join "\n" (format_entries max_chars results 1 0)

/-- Summed length of the included entries. -/
def sum_lengths (l : List String) : Nat := (l.map String.length).sum

theorem format_entries_cons_of_big (max_chars : Nat) (r : HybridResult)
    (rs : List HybridResult) (i c : Nat)
    (h : ¬ entry_available max_chars c (entry_header i r) ≤ 100) :
    format_entries max_chars (r :: rs) i c
      = (entry_header i r ++ "\n"
          ++ entry_content r.content (entry_available max_chars c (entry_header i r)) ++ "\n")
        :: format_entries max_chars rs (i + 1)
          (c + (entry_header i r ++ "\n"
            ++ entry_content r.content (entry_available max_chars c (entry_header i r))
            ++ "\n").length) := by
  simp [format_entries, h]

theorem str_take_length (s : String) (n : Nat) :
    (str_take s n).length = min n s.length := by
  show (s.data.take n).length = min n s.data.length
  exact List.length_take n s.data

theorem entry_content_length (content : String) (av : Int) (h : 100 < av) :
    ((entry_content content av).length : Int) ≤ av := by
  unfold entry_content
  by_cases hl : (content.length : Int) > av
  · rw [if_pos hl, String.length_append, str_take_length]
    have h3 : ((av - 3).toNat : Int) = av - 3 := Int.toNat_of_nonneg (by omega)
    have hmin : min (av - 3).toNat content.length ≤ (av - 3).toNat := min_le_left _ _
    have hc1 : ((min (av - 3).toNat content.length : Nat) : Int) ≤ ((av - 3).toNat : Int) := by
      exact_mod_cast hmin
    rw [h3] at hc1
    have hdots : (("..." : String).length : Int) = 3 := by decide
    push_cast
    omega
  · rw [if_neg hl]
    omega

theorem format_entries_budget (max_chars : Nat) :
    ∀ (rs : List HybridResult) (i c : Nat),
      sum_lengths (format_entries max_chars rs i c) + c + 8 ≤ max_chars
        ∨ format_entries max_chars rs i c = [] := by
  intro rs
  induction rs with
  | nil => intro i c; exact Or.inr rfl
  | cons r rest ih =>
    intro i c
    by_cases hav : entry_available max_chars c (entry_header i r) ≤ 100
    · exact Or.inr (by simp [format_entries, hav])
    · left
      rw [format_entries_cons_of_big max_chars r rest i c hav]
      have hav' : ¬ entry_available max_chars c (entry_header i r) ≤ 100 := hav
      have hav_def : entry_available max_chars c (entry_header i r)
          = (max_chars : Int) - c - (entry_header i r).length - 10 := rfl
      have hclen : (((entry_content r.content
          (entry_available max_chars c (entry_header i r))).length : Int))
          ≤ entry_available max_chars c (entry_header i r) :=
        entry_content_length r.content _ (by omega)
      have hentry : (entry_header i r ++ "\n"
          ++ entry_content r.content (entry_available max_chars c (entry_header i r))
          ++ "\n").length
          = (entry_header i r).length
            + (entry_content r.content
                (entry_available max_chars c (entry_header i r))).length + 2 := by
        simp [String.length_append, show ("\n" : String).length = 1 from rfl]
        omega
      have hbound : c + (entry_header i r ++ "\n"
          ++ entry_content r.content (entry_available max_chars c (entry_header i r))
          ++ "\n").length + 8 ≤ max_chars := by
        rw [hentry]
        have hint : (c : Int) + ((entry_header i r).length
            + (entry_content r.content
                (entry_available max_chars c (entry_header i r))).length + 2) + 8
            ≤ (max_chars : Int) := by
          omega
        exact_mod_cast hint
      rcases ih (i + 1) (c + (entry_header i r ++ "\n"
          ++ entry_content r.content (entry_available max_chars c (entry_header i r))
          ++ "\n").length) with hih | hih
      · simp only [sum_lengths, List.map_cons, List.sum_cons] at hih ⊢
        omega
      · rw [hih]
        simp only [sum_lengths, List.map_cons, List.map_nil, List.sum_cons, List.sum_nil]
        omega

theorem py_join_length (parts : List String) (h : parts ≠ []) :
    (py_join "\n" parts).length + 1 = sum_lengths parts + parts.length := by
  induction parts with
  | nil => exact absurd rfl h
  | cons x rest ih =>
    cases rest with
    | nil => simp [py_join, sum_lengths]
    | cons y rs =>
      have ih' := ih (by simp)
      rw [show py_join "\n" (x :: y :: rs) = x ++ "\n" ++ py_join "\n" (y :: rs) from rfl]
      simp only [String.length_append, sum_lengths, List.map_cons, List.sum_cons,
        List.length_cons] at ih' ⊢
      have h1 : ("\n" : String).length = 1 := by decide
      omega

/-- C8 (amended): format_context_for_prompt returns the fixed sentinel
"No relevant context found." for an empty result list; the summed length of
the included entries stays at least 8 characters under max_chars (each
content of each included entry is truncated to its remaining budget, and an entry
whose remaining budget is at or below the fixed minimum of 100 stops the
loop, omitting it entirely); but the final string joins the entries with
extra newline separators, so its total length is only bounded by max_chars
plus the number of included entries minus one — the claimed absolute bound
of max_chars itself does not hold (see the counterexample). -/
theorem format_context_budget (results : List HybridResult) (max_chars : Nat) :
    (results = [] → format_context_for_prompt results max_chars
        = "No relevant context found.") ∧
    (sum_lengths (format_entries max_chars results 1 0) + 8 ≤ max_chars
      ∨ format_entries max_chars results 1 0 = []) ∧
    (results ≠ [] →
      (format_context_for_prompt results max_chars).length + 9
          ≤ max_chars + (format_entries max_chars results 1 0).length
        ∨ format_context_for_prompt results max_chars = "") := by
  refine ⟨?_, ?_, ?_⟩
  · intro h
    subst h
    rfl
  · rcases format_entries_budget max_chars results 1 0 with h | h
    · left
      omega
    · right
      exact h
  · intro hne
    have hemp : results.isEmpty = false := by
      cases results with
      | nil => exact absurd rfl hne
      | cons a l => rfl
    have hfmt : format_context_for_prompt results max_chars
        = py_join "\n" (format_entries max_chars results 1 0) := by
      simp [format_context_for_prompt, hemp]
    by_cases hpar : format_entries max_chars results 1 0 = []
    · right
      rw [hfmt, hpar]
      rfl
    · left
      rw [hfmt]
      have hj := py_join_length (format_entries max_chars results 1 0) hpar
      rcases format_entries_budget max_chars results 1 0 with hb | hb
      · omega
      · exact absurd hb hpar

/-- A result row with blank type and zero scores, used for the formatter
inputs. -/
def zero_result (content : String) : HybridResult := ⟨0, content, "", none, 0, 0, 0⟩

theorem format_context_budget_witness :
    format_context_for_prompt [] 50 = "No relevant context found." ∧
    ((format_context_for_prompt [zero_result "hi"] 200).length + 9
        ≤ 200 + (format_entries 200 [zero_result "hi"] 1 0).length
      ∨ format_context_for_prompt [zero_result "hi"] 200 = "") :=
  ⟨(format_context_budget [] 50).1 rfl,
   (format_context_budget [zero_result "hi"] 200).2.2 (by decide)⟩

/-- Ten formatter results: nine with empty content and one with a long
content that is truncated to the remaining budget. -/
def results_fmt : List HybridResult :=
  [zero_result "", zero_result "", zero_result "", zero_result "", zero_result "",
   zero_result "", zero_result "", zero_result "", zero_result "",
   zero_result ⟨List.replicate 200 'a'⟩]

set_option maxRecDepth 10000 in
/-- C8 counterexample: with max_chars = 360, all ten entries are included
(each header is 23 or 24 characters, the nine empty entries use 225
characters, and the content of the tenth is truncated to its 101-character
budget, leaving the running total at 352 = 360 - 8), yet the nine joining
newlines push the final string to 361 characters — exceeding max_chars. -/
theorem format_context_length_counterexample :
    360 < (format_context_for_prompt results_fmt 360).length := by decide
